import Mathlib

/-!
Verification development for the `gsfont` font-table codec (`src/main.rs`).

The program is a bidirectional codec between monochrome glyph bitmaps and
generated MIPS "row renderer" routines:
  * `build_function` emits one routine body per 8-bit row pattern;
  * `build` packs the pixel buffer into per-glyph row bytes, generates the
    canonical 128-entry row table and the extra-row table;
  * `parse_function` decodes one routine from a byte cursor back into an
    8-byte intensity row;
  * `extract` orchestrates decoding of a whole binary blob.

The embedding models machine integers as `Nat` (the source values are `u8`
and `u32`; bit operations carry the width where it matters), byte streams as
`List Nat`, and fallible/panicking code as `Except`: distinguished error
constructors model Rust `Result` propagation (`?`) versus Rust panics
(slice-range panics, `Vec` index-out-of-bounds panics, `assert_eq!`
failures), which abort the process without producing output.
-/

set_option maxRecDepth 100000

deriving instance DecidableEq for Except

namespace GsFont

/-- A store instruction emitted by `build_function`: `sh s1, off(a1)`
(half-store, one pixel, `Pixel = u16` so byte offset = 2 × column) or
`sw s1, off(a1)` (merged store covering two adjacent pixel columns).
In the source these are lines of assembly text; the scaffolding around them
(the two prologue instructions, `jr s0` and the delay-slot `addi`) is fixed,
so a routine body is determined by its list of stores. -/
inductive Store where
  | sh (off : Nat)
  | sw (off : Nat)
deriving DecidableEq, Repr

/-- Whether the store is a merged (`sw`) store. -/
def Store.isSw : Store → Bool
  | .sw _ => true
  | .sh _ => false

/-- Embedding of `build_function(row, double, matching)` (src/main.rs:65-126),
restricted to the store instructions it emits, in emission order.  The loop
runs `i = 0, 2, 4, 6`; `pair = (row >> (8 - i - 2)) & 0b11`;
`size_of::<Pixel>() = 2`.  Note the `matching && row == 0b11011000 && i == 0`
patch branch sits in the `else` (single-width) arm of the source. -/
def build_function (row : Nat) (double : Bool) (matching : Bool) : List Store :=
  (([0, 2, 4, 6] : List Nat).map fun i =>
    let pair := (row >>> (8 - i - 2)) &&& 0b11
    if double then
      if pair = 0b00 then []
      else if pair = 0b01 then [Store.sh ((i + 1) * 2)]
      else if pair = 0b10 then [Store.sh (i * 2)]
      else [Store.sw (i * 2)]
    else
      if pair = 0b00 then []
      else if pair = 0b01 then [Store.sh ((i + 1) * 2)]
      else if pair = 0b10 then [Store.sh (i * 2)]
      else
        (if matching ∧ row = 0b11011000 ∧ i = 0 then [Store.sw (i * 2)]
         else [Store.sh (i * 2)]) ++ [Store.sh ((i + 1) * 2)]).flatten

/-- The canonical row table built in `build` (src/main.rs:153-157):
`for i in 0..(1 << 7) { rows.push(((i << 3) & 0b11111000) | ((i >> 4) & 0b00000110)); }`. -/
def rows : List Nat :=
  (List.range (1 <<< 7)).foldl
    (fun acc i => acc ++ [((i <<< 3) &&& 0b11111000) ||| ((i >>> 4) &&& 0b00000110)]) []

/-- Packing one 8-pixel row into a byte (src/main.rs:141-147 and 163-169):
`b = (b << 1) | (*i != 0) as u8` folded over the row's pixel bytes. -/
def pack_byte (row : List Nat) : Nat :=
  row.foldl (fun b i => (b <<< 1) ||| (if i ≠ 0 then 1 else 0)) 0

/-- Rust's `chunks_exact(n)` with explicit fuel (each step consumes `n ≥ 1`
elements, so `l.length` steps suffice); trailing elements that do not fill a
whole chunk are dropped, exactly as in Rust. -/
def chunksExactAux (n : Nat) : Nat → List α → List (List α)
  | 0, _ => []
  | fuel + 1, l => if n ≤ l.length ∧ n ≠ 0 then l.take n :: chunksExactAux n fuel (l.drop n) else []

/-- Rust's `slice::chunks_exact(n)` for `n ≥ 1`. -/
def chunksExact (n : Nat) (l : List α) : List (List α) :=
  chunksExactAux n l.length l

/-- Packing one 64-byte glyph block into its 8 row bytes
(src/main.rs:139-150): `buf = [0; 8]`, then for each 8-byte chunk at
`index`, `buf[index] = b`. -/
def pack_glyph (ch : List Nat) : List Nat :=
  ((chunksExact 8 ch).enum).foldl (fun buf p => buf.set p.1 (pack_byte p.2))
    [0, 0, 0, 0, 0, 0, 0, 0]

/-- The per-glyph packed rows (src/main.rs:138-151):
`data.chunks_exact(8 * 8)`, each block packed into its 8 row bytes. -/
def char_rows (data : List Nat) : List (List Nat) :=
  (chunksExact (8 * 8) data).map pack_glyph

/-- The extra-row table (src/main.rs:159-179).  When an extra-lines input is
present, its rows are packed and pushed unconditionally; afterwards every
row byte of every glyph is appended if absent from both `rows` and the
table so far. -/
def extra_rows (data : List Nat) (extra : Option (List Nat)) : List Nat :=
  (char_rows data).foldl
    (fun er ch =>
      ch.foldl (fun er i => if !rows.contains i && !er.contains i then er ++ [i] else er) er)
    (match extra with
     | some e => (chunksExact 8 e).map pack_byte
     | none => [])

/-- The data produced by `build` (src/main.rs:128-236) that the claims are
about: the packed glyph rows, the canonical row table, and the extra-row
table.  (The surrounding textual assembly is determined by these.) -/
def build (data : List Nat) (extra : Option (List Nat)) :
    List (List Nat) × List Nat × List Nat :=
  (char_rows data, rows, extra_rows data extra)

/-- Failure of an `assert_eq!` in `main`'s build arm: a Rust panic, aborting
before any output is written. -/
inductive BuildErr where
  | assertFailed
deriving DecidableEq, Repr

/-- The build command path of `main` (src/main.rs:330-352): the opened image
has `width × height` pixels (its luma buffer has `width * height` bytes);
`assert_eq!(infile.width(), 8)` and `assert_eq!(infile.height() % 8, 0)` run
before `build`, and the output file is written only after `build` returns. -/
def build_main (width height : Nat) (data : List Nat) :
    Except BuildErr (List (List Nat) × List Nat × List Nat) :=
  if width = 8 then
    if height % 8 = 0 then .ok (build data none)
    else .error .assertFailed
  else .error .assertFailed

/-- Big-endian 32-bit word from four bytes (`byteorder::BE`). -/
def mkWord (b0 b1 b2 b3 : Nat) : Nat :=
  (b0 <<< 24) ||| (b1 <<< 16) ||| (b2 <<< 8) ||| b3

/-- Big-endian byte serialization of a 32-bit word. -/
def u32be (w : Nat) : List Nat :=
  [(w >>> 24) &&& 0xFF, (w >>> 16) &&& 0xFF, (w >>> 8) &&& 0xFF, w &&& 0xFF]

/-- Modelled from the spec (§4.6, §8): the conceptual "compile" step — the
external assembler is outside the repository, so the MIPS encodings are
taken from the instruction comments in `parse_function` (src/main.rs:244-265)
and the standard MIPS I encodings of the emitted mnemonics:
`sh s1, off(a1)` = `0xA4B10000 | off`, `sw s1, off(a1)` = `0xACB10000 | off`. -/
def storeWord : Store → Nat
  | .sh off => 0xA4B10000 ||| (off &&& 0xFFFF)
  | .sw off => 0xACB10000 ||| (off &&& 0xFFFF)

/-- Modelled from the spec (§4.3, §8): the assembled bytes of one emitted
routine body — `lw s0, 0(a0)`; `addi a0, a0, 4`; the stores from
`build_function`; `jr s0`; the delay-slot `addi a1, a1, 1280`
(`SCREEN_WIDTH * size_of::<Pixel>()` = 640 × 2). -/
def assemble_routine (row : Nat) (double matching : Bool) : List Nat :=
  (([0x8C900000, 0x20840004] ++ (build_function row double matching).map storeWord
    ++ [0x02000008, 0x20A50500]).map u32be).flatten

/-- Decode-side failures of `parse_function`:
`eof` models a propagated `io::Error` from `read_u32` (`Result` via `?`);
`oobPanic` models the Rust panic on an out-of-bounds `Vec` index in
`pixels[..]` (a process abort, not a `Result`). -/
inductive DecodeErr where
  | eof
  | oobPanic
deriving DecidableEq, Repr

/-- Assignment `pixels[i] = v` with Rust `Vec` indexing semantics: out-of-bounds
indices panic. -/
def setPix (pixels : List Nat) (i v : Nat) : Except DecodeErr (List Nat) :=
  if i < pixels.length then .ok (pixels.set i v) else .error .oobPanic

/-- The store-replay loop of `parse_function` (src/main.rs:247-260) over a
byte stream: read big-endian words until `jr $s0` (`0x02000008`); for each
word, `w = instr & 0xFC000000 == 0xAC000000` selects merged (`sw`-family)
versus half store, `offset = instr & 0xFFFF`, column = `offset >> 1`;
merged sets columns `offset>>1` and `offset>>1 + 1` to `0x7F`, half sets
column `offset>>1` to `0xFF`.  Returns the pixel row and the unconsumed
bytes. -/
def parse_stores : List Nat → List Nat → Except DecodeErr (List Nat × List Nat)
  | b0 :: b1 :: b2 :: b3 :: rest, pixels =>
    let instr := mkWord b0 b1 b2 b3
    if instr = 0x02000008 then .ok (pixels, rest)
    else
      match
        (if instr &&& 0xFC000000 == 0xAC000000 then do
          let p ← setPix pixels ((instr &&& 0xFFFF) >>> 1) 0x7F
          setPix p (((instr &&& 0xFFFF) >>> 1) + 1) 0x7F
        else setPix pixels ((instr &&& 0xFFFF) >>> 1) 0xFF) with
      | .error e => .error e
      | .ok pixels => parse_stores rest pixels
  | _, _ => .error .eof

/-- Embedding of `parse_function` (src/main.rs:238-275) over the bytes at
the cursor: read the two prologue words; on the row-routine prologue
(`lw $s0, 0($a0)`; `addi $a0, $a0, 4`) replay the stores into
`vec![0,0,0,0,0,0,0,0]` and consume one epilogue word; on the terminator
prologue (`lw $s1, 0($sp)`; `addi $sp, $sp, 4`) consume four epilogue words
and return `None`; on any other prologue return `None` with only the two
prologue words consumed.  Returns the optional pixel row and the unconsumed
bytes. -/
def parse_function (bytes : List Nat) : Except DecodeErr (Option (List Nat) × List Nat) :=
  match bytes with
  | b0 :: b1 :: b2 :: b3 :: b4 :: b5 :: b6 :: b7 :: rest =>
    let w1 := mkWord b0 b1 b2 b3
    let w2 := mkWord b4 b5 b6 b7
    if w1 = 0x8C900000 ∧ w2 = 0x20840004 then
      match parse_stores rest [0, 0, 0, 0, 0, 0, 0, 0] with
      | .error e => .error e
      | .ok (pixels, rest1) =>
        match rest1 with
        | _ :: _ :: _ :: _ :: rest2 => .ok (some pixels, rest2)
        | _ => .error .eof
    else if w1 = 0x8FB10000 ∧ w2 = 0x23BD0004 then
      match rest with
      | _ :: _ :: _ :: _ :: _ :: _ :: _ :: _ :: _ :: _ :: _ :: _ :: _ :: _ :: _ :: _ :: rest2 =>
        .ok (none, rest2)
      | _ => .error .eof
    else .ok (none, rest)
  | _ => .error .eof

/-- Failures of `extract`:
`slicePanic` models the Rust panic of `&data[..offsets_len]` /
`&block[..8]` on a too-short slice; `subPanic` models the debug-build panic
of the `u32` subtraction `offset - data_vram` on underflow; `decode e`
propagates a `parse_function` outcome (`decode .eof` is the propagated
`io::Error`, `decode .oobPanic` the index panic). -/
inductive ExtractErr where
  | slicePanic
  | subPanic
  | decode (e : DecodeErr)
deriving DecidableEq, Repr

/-- Which `ExtractErr`s are Rust panics (process aborts) as opposed to
`Result` errors propagated to the caller. -/
def ExtractErr.isPanic : ExtractErr → Bool
  | .slicePanic => true
  | .subPanic => true
  | .decode .oobPanic => true
  | .decode .eof => false

/-- The offset-reading loop of `extract` (src/main.rs:289-292):
`while let Ok(offset) = cursor.read_u32::<BE>() { offsets.push(offset - data_vram) }`
— reads big-endian words until fewer than four bytes remain; each absolute
address has `data_vram` subtracted (panicking on underflow). -/
def readOffsets (data_vram : Nat) : List Nat → Except ExtractErr (List Nat)
  | b0 :: b1 :: b2 :: b3 :: rest =>
    let w := mkWord b0 b1 b2 b3
    if w < data_vram then .error .subPanic
    else
      match readOffsets data_vram rest with
      | .error e => .error e
      | .ok os => .ok ((w - data_vram) :: os)
  | _ => .ok []

/-- Rust's `slice::chunks(n)` for `n ≥ 1` (the source calls it with 9 and
2): like `chunksExact` but keeps a final short chunk.  Fuel as in
`chunksExactAux`. -/
def chunksOfAux (n : Nat) : Nat → List α → List (List α)
  | 0, _ => []
  | fuel + 1, l =>
    if l.isEmpty ∨ n = 0 then []
    else l.take n :: chunksOfAux n fuel (l.drop n)

/-- Rust's `slice::chunks(n)` for `n ≥ 1`. -/
def chunksOf (n : Nat) (l : List α) : List (List α) :=
  chunksOfAux n l.length l

/-- Decoding one primary block (src/main.rs:299-306): for each of the first
8 offsets (`&block[..8]`, which would panic were the block shorter than 8),
position the cursor and run `parse_function`, appending the decoded row when
it returns `Some`. -/
def decode_block (region : List Nat) (block : List Nat) (font : List Nat) :
    Except ExtractErr (List Nat) :=
  if block.length < 8 then .error .slicePanic
  else
    (block.take 8).foldlM
      (fun font offset =>
        match parse_function (region.drop offset) with
        | .error e => .error (.decode e)
        | .ok (some l, _) => .ok (font ++ l)
        | .ok (none, _) => .ok font)
      font

/-- The extra-region scan of `extract` (src/main.rs:311-316):
`while position < data.len() - offsets_len { parse_function, extend }`.
`p` is the cursor position within `region`; after a parse the position is
`region.length - rest.length`.  Every successful `parse_function` consumes
at least the 8 prologue bytes, so at most `region.length / 8 + 1` iterations
occur and fuel `region.length + 1` is never exhausted. -/
def extra_loopAux (region : List Nat) : Nat → Nat → List Nat → Except ExtractErr (List Nat)
  | 0, _, acc => .ok acc
  | fuel + 1, p, acc =>
    if p < region.length then
      match parse_function (region.drop p) with
      | .error e => .error (.decode e)
      | .ok (o, rest) =>
        extra_loopAux region fuel (region.length - rest.length)
          (match o with
           | some l => acc ++ l
           | none => acc)
    else .ok acc

/-- The extra-region scan starting at byte position `p`. -/
def extra_loop (region : List Nat) (p : Nat) : Except ExtractErr (List Nat) :=
  extra_loopAux region (region.length + 1) p []

/-- Embedding of `extract` (src/main.rs:277-319):
`offsets_len = num_chars * 9 * 4 * 2`; slicing `&data[..offsets_len]`
panics when the blob is shorter; the offset words are made file-relative
against `data_vram = vram + offsets_len`; the offsets are grouped in nines,
paired, and each pair's primary block decoded; finally the extra region is
scanned from `extra_offset`. -/
def extract (data : List Nat) (vram : Nat) (num_chars : Nat) (extra_offset : Nat) :
    Except ExtractErr (List Nat × List Nat) :=
  let offsets_len := num_chars * 9 * 4 * 2
  let data_vram := vram + offsets_len
  if data.length < offsets_len then .error .slicePanic
  else
    match readOffsets data_vram (data.take offsets_len) with
    | .error e => .error e
    | .ok offsets =>
      let region := data.drop offsets_len
      match
        (chunksOf 2 (chunksOf 9 offsets)).foldlM
          (fun font chunk =>
            match chunk with
            | [block, _] => decode_block region block font
            | _ => .ok font)
          [] with
      | .error e => .error e
      | .ok font =>
        match extra_loop region extra_offset with
        | .error e => .error e
        | .ok extra => .ok (font, extra)

/-! ### Spec-side definitions

These follow the wording of the specification (not the source); the
refinement theorems below compare them with the embedded source. -/

/-- A store described at the pixel-column level, as in the spec's bit-pair
table: a half-store at one column, or a merged store spanning a column and
its successor. -/
inductive SpecStore where
  | half (col : Nat)
  | merged (col : Nat)
deriving DecidableEq, Repr

/-- View of an emitted store at the column level (`Pixel` is 2 bytes, so
column = byte offset / 2). -/
def Store.toSpec : Store → SpecStore
  | .sh off => .half (off / 2)
  | .sw off => .merged (off / 2)

/-- Follows the spec's words (§4.3 bit-pair table, single-width column): the
byte is processed as four 2-bit groups, MSB-first, group `g` covering
columns `2g` and `2g+1`; `00` emits nothing, `01` a half-store at `2g+1`,
`10` a half-store at `2g`, `11` half-stores at `2g` then `2g+1`. -/
def specSingle (row : Nat) : List SpecStore :=
  ((List.range 4).map fun g =>
    let pair := (row >>> (6 - 2 * g)) &&& 0b11
    if pair = 0b00 then []
    else if pair = 0b01 then [SpecStore.half (2 * g + 1)]
    else if pair = 0b10 then [SpecStore.half (2 * g)]
    else [SpecStore.half (2 * g), SpecStore.half (2 * g + 1)]).flatten

/-- Follows the spec's words (§3 ExtraRowTable, "recorded in first-seen
order, no duplicates"): keep each value's first occurrence, dropping later
duplicates. -/
def dedupFirst : List Nat → List Nat
  | [] => []
  | a :: l => a :: dedupFirst (l.filter (fun x => x != a))
termination_by l => l.length
decreasing_by
  simp only [List.length_cons]
  exact Nat.lt_succ_of_le (List.length_filter_le _ _)

/-! ### C2: the single-width bit-pair table -/

/-- C2.  For every 8-bit row pattern processed as four MSB-first 2-bit
groups in single-width mode with the patch disabled, group bits `00` emit no
store, `01` one half-store at column `2g+1`, `10` one half-store at column
`2g`, `11` half-stores at columns `2g` then `2g+1`; in particular the byte
`0b10100000` emits exactly a half-store at column 0 and one at column 2. -/
theorem c2_bit_pair_table_single :
    (∀ row : Nat, row < 256 →
      (build_function row false false).map Store.toSpec = specSingle row) ∧
    (build_function 0b10100000 false false).map Store.toSpec
      = [SpecStore.half 0, SpecStore.half 2] := by
  constructor
  · decide
  · decide

/-- Witness for `c2_bit_pair_table_single` at the row byte `0b10100000`. -/
theorem c2_bit_pair_table_single_witness :
    (build_function 0b10100000 false false).map Store.toSpec = specSingle 0b10100000 :=
  c2_bit_pair_table_single.1 0b10100000 (by decide)

/-! ### C3: the canonical row table -/

/-- C3.  The canonical row table is the ordered 128-element sequence with
entry `i` equal to `((i << 3) & 0xF8) | ((i >> 4) & 0x06)`; it is a fixed
constant, so `build` yields it identically regardless of the glyph set and
of the extra-lines input. -/
theorem c3_canonical_rows :
    rows.length = 128 ∧
    (∀ i : Nat, i < 128 → rows.getD i 0 = ((i <<< 3) &&& 0xF8) ||| ((i >>> 4) &&& 0x06)) ∧
    (∀ (data : List Nat) (extra : Option (List Nat)), (build data extra).2.1 = rows) := by
  refine ⟨by decide, by decide, fun _ _ => rfl⟩

/-- Witness for `c3_canonical_rows` at index 5 and an arbitrary build. -/
theorem c3_canonical_rows_witness :
    rows.getD 5 0 = ((5 <<< 3) &&& 0xF8) ||| ((5 >>> 4) &&& 0x06) ∧
    (build [] none).2.1 = rows :=
  ⟨c3_canonical_rows.2.1 5 (by decide), c3_canonical_rows.2.2 [] none⟩

/-! ### C4: where the `0b11011000` patch exception lives -/

/-- Counterexample to C4 as stated: under double-width mode with the patch
flag enabled, the pattern `0b11011000` emits at group 0 a single merged
store only — the emitted list is `[sw 0, sh 6, sh 8]` and contains no
half-store at byte offset 2 (column 1), so no "merged store then
half-store" pair is emitted at group 0. -/
theorem c4_no_patch_in_double_width :
    build_function 0b11011000 true true = [Store.sw 0, Store.sh 6, Store.sh 8] ∧
    Store.sh 2 ∉ build_function 0b11011000 true true := by
  constructor
  · decide
  · decide

/-- C4 (amended).  The patch exception lives in single-width mode: under
single-width with the patch flag enabled, the pattern `0b11011000` emits at
group 0 one merged store then one half-store; every other canonical pattern
under that mode emits the same stores as with the patch disabled and never
a merged store; and under double-width mode the patch flag never changes
the output (every `11` group emits a single merged store regardless). -/
theorem c4_patch_exception_single_width :
    build_function 0b11011000 false true
      = [Store.sw 0, Store.sh 2, Store.sh 6, Store.sh 8] ∧
    (∀ row ∈ rows, row ≠ 0b11011000 →
      build_function row false true = build_function row false false ∧
      (build_function row false true).all (fun s => !s.isSw) = true) ∧
    (∀ (row : Nat) (m : Bool), build_function row true m = build_function row true false) := by
  refine ⟨by decide, by decide, fun row m => ?_⟩
  cases m <;> rfl

/-- Witness for `c4_patch_exception_single_width` at the canonical row 0. -/
theorem c4_patch_exception_single_width_witness :
    build_function 0 false true = build_function 0 false false ∧
    (build_function 0 false true).all (fun s => !s.isSw) = true :=
  c4_patch_exception_single_width.2.1 0 (by decide) (by decide)

/-! ### C10: the decoder's unchecked row-buffer indexing -/

/-- C10.  The store replay indexes its 8-byte row buffer without a bounds
check: a routine-prologue input whose store word has immediate `0x10`
(column 8) makes the half-store branch panic out of bounds, and one whose
merged-store word has immediate `0x0E` (column 7, so spanning column 8)
makes the merged branch panic — the decoder is not total over arbitrary
inputs whose prologue matches a row routine. -/
theorem c10_decoder_oob_panic :
    parse_function (([0x8C900000, 0x20840004, 0xA4B10010].map u32be).flatten)
      = .error .oobPanic ∧
    parse_function (([0x8C900000, 0x20840004, 0xACB1000E].map u32be).flatten)
      = .error .oobPanic ∧
    (0xA4B10010 &&& 0xFC000000 ≠ 0xAC000000) ∧ ((0xA4B10010 &&& 0xFFFF) >>> 1 = 8) ∧
    (0xACB1000E &&& 0xFC000000 = 0xAC000000) ∧ ((0xACB1000E &&& 0xFFFF) >>> 1 = 7) :=
  ⟨rfl, rfl, by decide, by decide, by decide, by decide⟩

/-! ### C9: geometry precondition on the encode path -/

/-- C9.  Every encode input whose geometry violates the precondition
(width ≠ 8 or height not a multiple of 8) fails the `assert_eq!`s before
`build` runs, so no output is produced; in particular a luma buffer of
`width * height` bytes whose length is not a multiple of 64 never reaches
`build`, hence never yields a partial glyph table. -/
theorem c9_geometry_precondition :
    (∀ (w h : Nat) (data : List Nat), w ≠ 8 ∨ h % 8 ≠ 0 →
      build_main w h data = .error .assertFailed) ∧
    (∀ (w h : Nat) (data : List Nat), data.length = w * h → data.length % 64 ≠ 0 →
      build_main w h data = .error .assertFailed) := by
  have base : ∀ (w h : Nat) (data : List Nat), w ≠ 8 ∨ h % 8 ≠ 0 →
      build_main w h data = .error .assertFailed := by
    intro w h data hvio
    unfold build_main
    rcases hvio with hw | hh
    · rw [if_neg hw]
    · by_cases hw : w = 8
      · rw [if_pos hw, if_neg hh]
      · rw [if_neg hw]
  refine ⟨base, fun w h data hlen hmod => ?_⟩
  by_cases hw : w = 8
  · by_cases hh : h % 8 = 0
    · exfalso
      apply hmod
      subst hw
      rw [hlen]
      have h64 : (64 : Nat) = 8 * 8 := by norm_num
      rw [h64, Nat.mul_mod_mul_left, hh, Nat.mul_zero]
    · exact base w h data (Or.inr hh)
  · exact base w h data (Or.inl hw)

/-- Witness for `c9_geometry_precondition`: a 7-wide image, and an 8×1
image whose 8-byte buffer is not a multiple of 64. -/
theorem c9_geometry_precondition_witness :
    build_main 7 8 [] = .error .assertFailed ∧
    build_main 8 1 (List.replicate 8 0) = .error .assertFailed :=
  ⟨c9_geometry_precondition.1 7 8 [] (Or.inl (by decide)),
   c9_geometry_precondition.2 8 1 (List.replicate 8 0) (by decide) (by decide)⟩

/-! ### C8: blobs shorter than the offset table -/

/-- Counterexample to C8 as stated: for the empty blob with
`num_chars = 1`, `extract` fails with the slice-range panic of
`&data[..offsets_len]` — a Rust panic (process abort), not a `Result`
error propagated to the caller: it differs from every propagated decode
error. -/
theorem c8_panic_not_propagated :
    extract [] 0 1 0 = .error .slicePanic ∧
    ExtractErr.isPanic .slicePanic = true ∧
    (ExtractErr.slicePanic : ExtractErr) ≠ .decode .eof ∧
    (ExtractErr.slicePanic : ExtractErr) ≠ .decode .oobPanic :=
  ⟨rfl, rfl, by decide, by decide⟩

/-- C8 (amended).  For every blob shorter than
`offsets_len = num_chars * 9 * 4 * 2` bytes, the decode path fails fatally
before producing any output — via the out-of-bounds slice panic of
`&data[..offsets_len]`, not a propagated I/O error — and produces no
partial output. -/
theorem c8_short_blob_panics :
    ∀ (data : List Nat) (vram num_chars extra_offset : Nat),
      data.length < num_chars * 9 * 4 * 2 →
      extract data vram num_chars extra_offset = .error .slicePanic := by
  intro data vram num_chars extra_offset h
  unfold extract
  rw [if_pos h]

/-- Witness for `c8_short_blob_panics` at the empty blob. -/
theorem c8_short_blob_panics_witness :
    extract [] 0 1 0 = .error .slicePanic :=
  c8_short_blob_panics [] 0 1 0 (by decide)

/-! ### C7: unrecognized prologues -/

/-- A blob for one glyph whose 18 offset words all resolve to position 0 of
the code region (`vram = 0`, so `data_vram = 72`), where an unrecognized
all-zero two-word prologue sits. -/
def c7_blob : List Nat :=
  (List.replicate 18 ([0, 0, 0, 72] : List Nat)).flatten ++ List.replicate 8 0

/-- Counterexample to C7 as stated: extracting `c7_blob` (one glyph, all
eight primary row offsets pointing at an unrecognized prologue) yields an
empty font buffer — zero bytes — whereas the claim predicts eight fully
blank 8-byte rows (64 zero bytes) in the decoded output. -/
theorem c7_row_omitted_not_blank :
    extract c7_blob 0 1 0 = .ok ([], []) ∧
    ([] : List Nat).length = 0 ∧ (0 : Nat) ≠ 64 :=
  ⟨rfl, rfl, by decide⟩

/-- C7 (amended).  When the decoder reads a two-word prologue matching
neither the row-routine encoding nor the terminator encoding, it returns
`None` (not an error) having consumed exactly the two prologue words; the
affected row is then omitted entirely from the decoded output (it
contributes no bytes), rather than appearing as a blank 8-byte row. -/
theorem c7_unrecognized_prologue :
    (∀ (b0 b1 b2 b3 b4 b5 b6 b7 : Nat) (rest : List Nat),
      ¬ (mkWord b0 b1 b2 b3 = 0x8C900000 ∧ mkWord b4 b5 b6 b7 = 0x20840004) →
      ¬ (mkWord b0 b1 b2 b3 = 0x8FB10000 ∧ mkWord b4 b5 b6 b7 = 0x23BD0004) →
      parse_function (b0 :: b1 :: b2 :: b3 :: b4 :: b5 :: b6 :: b7 :: rest)
        = .ok (none, rest)) ∧
    extract c7_blob 0 1 0 = .ok ([], []) := by
  refine ⟨fun b0 b1 b2 b3 b4 b5 b6 b7 rest h1 h2 => ?_, rfl⟩
  simp only [parse_function]
  rw [if_neg h1, if_neg h2]

/-- Witness for `c7_unrecognized_prologue` at the all-zero prologue. -/
theorem c7_unrecognized_prologue_witness :
    parse_function [0, 0, 0, 0, 0, 0, 0, 0] = .ok (none, []) :=
  c7_unrecognized_prologue.1 0 0 0 0 0 0 0 0 [] (by decide) (by decide)

/-! ### C5: intensities written by the store replay -/

/-- Reading `List.getD` through `List.set`. -/
lemma getD_set (l : List Nat) (t i v : Nat) :
    (l.set t v).getD i 0 = if t = i ∧ t < l.length then v else l.getD i 0 := by
  rw [List.getD_eq_getElem?_getD, List.getElem?_set]
  by_cases h1 : t = i
  · by_cases h2 : t < l.length
    · rw [if_pos h1, if_pos h2, if_pos ⟨h1, h2⟩]
      rfl
    · rw [if_pos h1, if_neg h2, if_neg (fun hc => h2 hc.2)]
      rw [h1] at h2
      rw [List.getD_eq_default _ _ (Nat.le_of_not_lt h2)]
      rfl
  · rw [if_neg h1, if_neg (fun hc => h1 hc.1), List.getD_eq_getElem?_getD]

/-- Inversion for a successful `setPix`. -/
lemma setPix_ok {px : List Nat} {i v : Nat} {px' : List Nat}
    (h : setPix px i v = .ok px') : px' = px.set i v ∧ i < px.length := by
  by_cases hi : i < px.length
  · rw [setPix, if_pos hi] at h
    exact ⟨(Except.ok.inj h).symm, hi⟩
  · rw [setPix, if_neg hi] at h
    cases h

/-- Every store writes `0xFF` (half) or `0x7F` (merged) unconditionally:
a successful replay leaves each column at `0xFF`, at `0x7F`, or untouched —
no other intensity (in particular no `0xBF`) is ever produced. -/
lemma parse_stores_getD :
    ∀ (n : Nat) (bs px res rest : List Nat), bs.length ≤ n →
      parse_stores bs px = .ok (res, rest) → ∀ i : Nat,
      res.getD i 0 = 0xFF ∨ res.getD i 0 = 0x7F ∨ res.getD i 0 = px.getD i 0 := by
  intro n
  induction n with
  | zero =>
    intro bs px res rest hlen h i
    cases bs with
    | nil =>
      have hred : parse_stores ([] : List Nat) px = .error .eof := rfl
      rw [hred] at h
      cases h
    | cons b bs => simp at hlen
  | succ n ih =>
    intro bs px res rest hlen h i
    rcases bs with _ | ⟨b0, _ | ⟨b1, _ | ⟨b2, _ | ⟨b3, bs'⟩⟩⟩⟩
    · have hred : parse_stores ([] : List Nat) px = .error .eof := rfl
      rw [hred] at h
      cases h
    · have hred : parse_stores [b0] px = .error .eof := rfl
      rw [hred] at h
      cases h
    · have hred : parse_stores [b0, b1] px = .error .eof := rfl
      rw [hred] at h
      cases h
    · have hred : parse_stores [b0, b1, b2] px = .error .eof := rfl
      rw [hred] at h
      cases h
    ·
      have hlen' : bs'.length ≤ n := by
        simp only [List.length_cons] at hlen
        omega
      simp only [parse_stores] at h
      by_cases hjr : mkWord b0 b1 b2 b3 = 0x02000008
      · rw [if_pos hjr] at h
        have hp := Prod.mk.inj (Except.ok.inj h)
        rw [← hp.1]
        exact Or.inr (Or.inr rfl)
      · rw [if_neg hjr] at h
        by_cases hw : (mkWord b0 b1 b2 b3 &&& 0xFC000000 == 0xAC000000) = true
        · rw [if_pos hw] at h
          cases hsp : setPix px ((mkWord b0 b1 b2 b3 &&& 0xFFFF) >>> 1) 0x7F with
          | error e =>
            rw [hsp] at h
            simp only [bind, Except.bind] at h
            cases h
          | ok p =>
            rw [hsp] at h
            simp only [bind, Except.bind] at h
            cases hsp2 : setPix p (((mkWord b0 b1 b2 b3 &&& 0xFFFF) >>> 1) + 1) 0x7F with
            | error e =>
              rw [hsp2] at h
              cases h
            | ok p2 =>
              rw [hsp2] at h
              obtain ⟨hp1, hc1⟩ := setPix_ok hsp
              obtain ⟨hp2, hc2⟩ := setPix_ok hsp2
              rcases ih bs' p2 res rest hlen' h i with h1 | h1 | h1
              · exact Or.inl h1
              · exact Or.inr (Or.inl h1)
              · rw [h1, hp2, getD_set]
                by_cases he2 : ((mkWord b0 b1 b2 b3 &&& 0xFFFF) >>> 1) + 1 = i ∧
                    ((mkWord b0 b1 b2 b3 &&& 0xFFFF) >>> 1) + 1 < p.length
                · rw [if_pos he2]
                  exact Or.inr (Or.inl rfl)
                · rw [if_neg he2, hp1, getD_set]
                  by_cases he1 : (mkWord b0 b1 b2 b3 &&& 0xFFFF) >>> 1 = i ∧
                      (mkWord b0 b1 b2 b3 &&& 0xFFFF) >>> 1 < px.length
                  · rw [if_pos he1]
                    exact Or.inr (Or.inl rfl)
                  · rw [if_neg he1]
                    exact Or.inr (Or.inr rfl)
        · rw [if_neg hw] at h
          cases hsp : setPix px ((mkWord b0 b1 b2 b3 &&& 0xFFFF) >>> 1) 0xFF with
          | error e =>
            rw [hsp] at h
            cases h
          | ok p =>
            rw [hsp] at h
            obtain ⟨hp1, hc1⟩ := setPix_ok hsp
            rcases ih bs' p res rest hlen' h i with h1 | h1 | h1
            · exact Or.inl h1
            · exact Or.inr (Or.inl h1)
            · rw [h1, hp1, getD_set]
              by_cases he1 : (mkWord b0 b1 b2 b3 &&& 0xFFFF) >>> 1 = i ∧
                  (mkWord b0 b1 b2 b3 &&& 0xFFFF) >>> 1 < px.length
              · rw [if_pos he1]
                exact Or.inl rfl
              · rw [if_neg he1]
                exact Or.inr (Or.inr rfl)

/-- The decoder's fresh row buffer reads 0 at every index. -/
lemma getD_zero_buffer (i : Nat) : ([0, 0, 0, 0, 0, 0, 0, 0] : List Nat).getD i 0 = 0 := by
  match i with
  | 0 | 1 | 2 | 3 | 4 | 5 | 6 | 7 => rfl
  | j + 8 =>
    rw [List.getD_eq_default]
    simp

/-- Counterexample to C5 as stated: the routine whose stores set column 3
twice — a half-store with immediate 6 (column 3), then a merged store with
immediate 6 (spanning columns 3 and 4) — decodes to `0x7F` at column 3,
not to the claimed re-store intensity `0xBF`. -/
theorem c5_double_store_gives_0x7F :
    parse_function (([0x8C900000, 0x20840004, 0xA4B10006, 0xACB10006,
        0x02000008, 0x20A50500].map u32be).flatten)
      = .ok (some [0, 0, 0, 0x7F, 0x7F, 0, 0, 0], []) ∧
    ([0, 0, 0, 0x7F, 0x7F, 0, 0, 0] : List Nat).getD 3 0 ≠ 0xBF :=
  ⟨rfl, by decide⟩

/-- C5 (amended).  During routine decoding a half-store sets its column to
`0xFF` and a merged store sets both spanned columns to `0x7F`,
unconditionally — there is no re-store escalation and no `0xBF` intensity:
every successfully replayed routine leaves each column at `0xFF`, `0x7F`,
or `0` (untouched), the last store to a column winning; the routine of the
spec's example (column 3 set by a half-store, then by a merged store
spanning it) decodes to `0x7F` at column 3. -/
theorem c5_store_replay_values :
    (∀ (bs res rest : List Nat),
      parse_stores bs [0, 0, 0, 0, 0, 0, 0, 0] = .ok (res, rest) → ∀ i : Nat,
      res.getD i 0 = 0xFF ∨ res.getD i 0 = 0x7F ∨ res.getD i 0 = 0) ∧
    parse_function (([0x8C900000, 0x20840004, 0xA4B10006, 0xACB10006,
        0x02000008, 0x20A50500].map u32be).flatten)
      = .ok (some [0, 0, 0, 0x7F, 0x7F, 0, 0, 0], []) := by
  refine ⟨fun bs res rest h i => ?_, rfl⟩
  have := parse_stores_getD bs.length bs [0, 0, 0, 0, 0, 0, 0, 0] res rest
    (Nat.le_refl _) h i
  rwa [getD_zero_buffer] at this

/-- Witness for `c5_store_replay_values`: the single half-store routine for
column 3 replays to a buffer whose column 3 reads `0xFF`. -/
theorem c5_store_replay_values_witness :
    ([0, 0, 0, 0xFF, 0, 0, 0, 0] : List Nat).getD 3 0 = 0xFF ∨
    ([0, 0, 0, 0xFF, 0, 0, 0, 0] : List Nat).getD 3 0 = 0x7F ∨
    ([0, 0, 0, 0xFF, 0, 0, 0, 0] : List Nat).getD 3 0 = 0 :=
  c5_store_replay_values.1 (([0xA4B10006, 0x02000008].map u32be).flatten)
    [0, 0, 0, 0xFF, 0, 0, 0, 0] [] (by rfl) 3

/-! ### C6: the extra-row table -/

/-- Rewriting `contains` in terms of membership (the `BEq Nat` instance is lawful). -/
lemma contains_eq_mem (l : List Nat) (a : Nat) : l.contains a = decide (a ∈ l) := by
  rw [show l.contains a = List.elem a l from rfl, List.elem_eq_mem]

/-- Members of `dedupFirst l` come from `l`. -/
lemma mem_dedupFirst {a : Nat} : ∀ l : List Nat, a ∈ dedupFirst l → a ∈ l := by
  intro l
  induction l using dedupFirst.induct with
  | case1 => simp [dedupFirst]
  | case2 b l ih =>
    rw [dedupFirst]
    intro h
    rcases List.mem_cons.mp h with h | h
    · exact List.mem_cons.mpr (Or.inl h)
    · exact List.mem_cons.mpr (Or.inr (List.mem_filter.mp (ih h)).1)

/-- The function `dedupFirst` produces no duplicates. -/
lemma dedupFirst_nodup : ∀ l : List Nat, (dedupFirst l).Nodup := by
  intro l
  induction l using dedupFirst.induct with
  | case1 => simp [dedupFirst]
  | case2 b l ih =>
    rw [dedupFirst]
    refine List.nodup_cons.mpr ⟨fun hmem => ?_, ih⟩
    have := (List.mem_filter.mp (mem_dedupFirst _ hmem)).2
    simp at this

/-- The insert-if-new fold of `build`'s extra-row scan, characterized as
first-seen-order deduplication of the non-canonical values not already in
the accumulator. -/
lemma foldl_insert_eq (l : List Nat) : ∀ acc : List Nat,
    l.foldl (fun er i => if !rows.contains i && !er.contains i then er ++ [i] else er) acc
      = acc ++ dedupFirst (l.filter (fun b => !rows.contains b && !acc.contains b)) := by
  induction l with
  | nil => intro acc; simp [dedupFirst]
  | cons i l ih =>
    intro acc
    rw [List.foldl_cons, List.filter_cons]
    by_cases hc : (!rows.contains i && !acc.contains i) = true
    · rw [if_pos hc, if_pos hc, ih, dedupFirst, List.filter_filter]
      have hpt : ∀ a ∈ l, (!rows.contains a && !(acc ++ [i]).contains a)
          = ((a != i) && (!rows.contains a && !acc.contains a)) := by
        intro a _
        simp only [contains_eq_mem, List.mem_append, List.mem_singleton]
        by_cases h1 : a ∈ rows <;> by_cases h2 : a ∈ acc <;> by_cases h3 : a = i <;>
          simp [h1, h2, h3]
      rw [List.filter_congr hpt]
      simp
    · rw [if_neg hc, if_neg hc, ih]

/-- Counterexample to C6 as stated: in a matching build run whose
extra-lines input is sixteen zero pixel bytes (two all-dark rows) and whose
glyph data is empty, the extra row table is `[0, 0]` — it has a duplicate,
and `0` is a member of the canonical table, so the table neither is
duplicate-free nor contains only canonical-absent patterns, nor is it built
from the glyph content alone. -/
theorem c6_extra_input_breaks_invariants :
    extra_rows [] (some (List.replicate 16 0)) = [0, 0] ∧
    ¬ ([0, 0] : List Nat).Nodup ∧
    (0 : Nat) ∈ rows := by
  refine ⟨rfl, by decide, by decide⟩

/-- C6 (amended).  In a build run with no extra-lines input the extra row
table contains no duplicates, contains only patterns absent from the
canonical 128-entry table, and is exactly the first-seen-order
deduplication of the glyph rows' non-canonical patterns; when an
extra-lines input is supplied its packed rows are seeded into the table
unchecked, so the invariants are only guaranteed for the glyph-derived
part. -/
theorem c6_extra_rows_invariants_no_extra_input (data : List Nat) :
    (extra_rows data none).Nodup ∧
    (∀ b ∈ extra_rows data none, b ∉ rows) ∧
    extra_rows data none
      = dedupFirst (((char_rows data).flatten).filter (fun b => !rows.contains b)) := by
  have hfold : extra_rows data none
      = ((char_rows data).flatten).foldl
          (fun er i => if !rows.contains i && !er.contains i then er ++ [i] else er) [] := by
    rw [extra_rows]
    exact (List.foldl_flatten _ _ _).symm
  have heq : extra_rows data none
      = dedupFirst (((char_rows data).flatten).filter (fun b => !rows.contains b)) := by
    rw [hfold, foldl_insert_eq, List.nil_append]
    have hpt : ∀ a ∈ (char_rows data).flatten,
        (!rows.contains a && !([] : List Nat).contains a) = (!rows.contains a) := by
      intro a _
      simp [List.contains]
    rw [List.filter_congr hpt]
  refine ⟨heq ▸ dedupFirst_nodup _, fun b hb => ?_, heq⟩
  have hmem := mem_dedupFirst _ (heq ▸ hb)
  have := (List.mem_filter.mp hmem).2
  simpa [contains_eq_mem] using this

/-- Witness for `c6_extra_rows_invariants_no_extra_input` on a one-glyph
set of all-lit pixels: its only row pattern `0b11111111` lands in the extra
table and is not canonical. -/
theorem c6_extra_rows_invariants_witness :
    (255 : Nat) ∉ rows ∧ (extra_rows (List.replicate 64 1) none).Nodup :=
  ⟨(c6_extra_rows_invariants_no_extra_input (List.replicate 64 1)).2.1 255 (by decide),
   (c6_extra_rows_invariants_no_extra_input (List.replicate 64 1)).1⟩

/-! ### C1: encode/decode round trip in single-width mode -/

/-- Every chunk produced by `chunksExactAux` has exactly `n` elements. -/
lemma length_of_mem_chunksExactAux {n : Nat} :
    ∀ (fuel : Nat) (l c : List α), c ∈ chunksExactAux n fuel l → c.length = n := by
  intro fuel
  induction fuel with
  | zero =>
    intro l c h
    rw [chunksExactAux] at h
    cases h
  | succ fuel ih =>
    intro l c h
    rw [chunksExactAux] at h
    by_cases hc : n ≤ l.length ∧ n ≠ 0
    · rw [if_pos hc] at h
      rcases List.mem_cons.mp h with h | h
      · subst h
        simp only [List.length_take]
        omega
      · exact ih _ _ h
    · rw [if_neg hc] at h
      cases h

/-- Every chunk produced by `chunksExact` has exactly `n` elements. -/
lemma length_of_mem_chunksExact {n : Nat} {l c : List α} (h : c ∈ chunksExact n l) :
    c.length = n :=
  length_of_mem_chunksExactAux _ _ _ h

/-- The function `chunksExactAux` produces `l.length / n` chunks (given enough fuel). -/
lemma chunksExactAux_length {n : Nat} :
    ∀ (fuel : Nat) (l : List α), l.length ≤ fuel →
      (chunksExactAux n fuel l).length = l.length / n := by
  intro fuel
  induction fuel with
  | zero =>
    intro l hl
    rw [chunksExactAux]
    have h0 : l.length = 0 := Nat.le_zero.mp hl
    rw [h0]
    simp
  | succ fuel ih =>
    intro l hl
    rw [chunksExactAux]
    by_cases hc : n ≤ l.length ∧ n ≠ 0
    · rw [if_pos hc]
      simp only [List.length_cons]
      rw [ih (l.drop n) (by simp only [List.length_drop]; omega), List.length_drop]
      rw [Nat.div_eq_sub_div (Nat.pos_of_ne_zero hc.2) hc.1]
    · rw [if_neg hc]
      by_cases hn : n = 0
      · simp [hn]
      · have hlt : l.length < n := by
          rcases Decidable.not_and_iff_or_not.mp hc with h | h
          · omega
          · exact absurd hn (by simpa using h)
        rw [Nat.div_eq_of_lt hlt]
        rfl

/-- The index-assignment loop of `pack_glyph` acts as `map pack_byte` on an
8-chunk list. -/
lemma enum_foldl_set_eight (l : List (List Nat)) (h : l.length = 8) :
    (l.enum).foldl (fun buf p => buf.set p.1 (pack_byte p.2)) [0, 0, 0, 0, 0, 0, 0, 0]
      = l.map pack_byte := by
  rcases l with _ | ⟨c0, l⟩
  · simp at h
  rcases l with _ | ⟨c1, l⟩
  · simp at h
  rcases l with _ | ⟨c2, l⟩
  · simp at h
  rcases l with _ | ⟨c3, l⟩
  · simp at h
  rcases l with _ | ⟨c4, l⟩
  · simp at h
  rcases l with _ | ⟨c5, l⟩
  · simp at h
  rcases l with _ | ⟨c6, l⟩
  · simp at h
  rcases l with _ | ⟨c7, l⟩
  · simp at h
  rcases l with _ | ⟨c8, l⟩
  · rfl
  · simp only [List.length_cons] at h
    omega

/-- Applying `pack_glyph` to a 64-byte block is `pack_byte` over its eight 8-byte
rows. -/
lemma pack_glyph_eq_map (glyph : List Nat) (h : glyph.length = 64) :
    pack_glyph glyph = (chunksExact 8 glyph).map pack_byte := by
  have hlen : (chunksExact 8 glyph).length = 8 := by
    rw [chunksExact, chunksExactAux_length glyph.length glyph (Nat.le_refl _), h]
  exact enum_foldl_set_eight _ hlen

/-- Bridging a thresholded pixel to a `Bool`. -/
lemma if_ne_toNat (p : Nat) : (if p ≠ 0 then (1 : Nat) else 0) = (decide (p ≠ 0)).toNat := by
  by_cases h : p = 0 <;> simp [h]

/-- Bridging a thresholded output intensity to a `Bool`. -/
lemma if_255_cond (p : Nat) :
    (if p ≠ 0 then (255 : Nat) else 0) = cond (decide (p ≠ 0)) 255 0 := by
  by_cases h : p = 0 <;> simp [h]

/-- The function `Bool.toNat` is its own threshold. -/
lemma toNat_ne_zero_if (b : Bool) : (if b.toNat ≠ 0 then (1 : Nat) else 0) = b.toNat := by
  cases b <;> simp

/-- Deciding nonzeroness of `Bool.toNat` gives the `Bool` back. -/
lemma decide_toNat_ne_zero (b : Bool) : decide (b.toNat ≠ 0) = b := by
  cases b <;> simp

/-- Round trip for one row over all 256 bit patterns, stated over the
thresholded bits. -/
lemma row_roundtrip_bool : ∀ b0 b1 b2 b3 b4 b5 b6 b7 : Bool,
    parse_function (assemble_routine
      (pack_byte [b0.toNat, b1.toNat, b2.toNat, b3.toNat,
        b4.toNat, b5.toNat, b6.toNat, b7.toNat]) false false)
      = .ok (some [cond b0 255 0, cond b1 255 0, cond b2 255 0, cond b3 255 0,
          cond b4 255 0, cond b5 255 0, cond b6 255 0, cond b7 255 0], []) := by
  decide

/-- Round trip for one 8-pixel row: packing, emitting the single-width
routine, assembling and decoding it recovers the thresholded pixels. -/
lemma row_roundtrip (pix : List Nat) (h : pix.length = 8) :
    parse_function (assemble_routine (pack_byte pix) false false)
      = .ok (some (pix.map fun p => if p ≠ 0 then 0xFF else 0), []) := by
  rcases pix with _ | ⟨p0, pix⟩
  · simp at h
  rcases pix with _ | ⟨p1, pix⟩
  · simp at h
  rcases pix with _ | ⟨p2, pix⟩
  · simp at h
  rcases pix with _ | ⟨p3, pix⟩
  · simp at h
  rcases pix with _ | ⟨p4, pix⟩
  · simp at h
  rcases pix with _ | ⟨p5, pix⟩
  · simp at h
  rcases pix with _ | ⟨p6, pix⟩
  · simp at h
  rcases pix with _ | ⟨p7, pix⟩
  · simp at h
  rcases pix with _ | ⟨p8, pix⟩
  · have hpack : pack_byte [p0, p1, p2, p3, p4, p5, p6, p7]
        = pack_byte [(decide (p0 ≠ 0)).toNat, (decide (p1 ≠ 0)).toNat,
            (decide (p2 ≠ 0)).toNat, (decide (p3 ≠ 0)).toNat,
            (decide (p4 ≠ 0)).toNat, (decide (p5 ≠ 0)).toNat,
            (decide (p6 ≠ 0)).toNat, (decide (p7 ≠ 0)).toNat] := by
      simp only [pack_byte, List.foldl_cons, List.foldl_nil, if_ne_toNat,
        toNat_ne_zero_if, decide_toNat_ne_zero]
    have hmap : ([p0, p1, p2, p3, p4, p5, p6, p7].map fun p => if p ≠ 0 then (255 : Nat) else 0)
        = [cond (decide (p0 ≠ 0)) 255 0, cond (decide (p1 ≠ 0)) 255 0,
            cond (decide (p2 ≠ 0)) 255 0, cond (decide (p3 ≠ 0)) 255 0,
            cond (decide (p4 ≠ 0)) 255 0, cond (decide (p5 ≠ 0)) 255 0,
            cond (decide (p6 ≠ 0)) 255 0, cond (decide (p7 ≠ 0)) 255 0] := by
      simp only [List.map_cons, List.map_nil, if_255_cond]
    rw [hpack, hmap]
    exact row_roundtrip_bool (decide (p0 ≠ 0)) (decide (p1 ≠ 0)) (decide (p2 ≠ 0))
      (decide (p3 ≠ 0)) (decide (p4 ≠ 0)) (decide (p5 ≠ 0)) (decide (p6 ≠ 0))
      (decide (p7 ≠ 0))
  · simp only [List.length_cons] at h
    omega

/-- C1.  Round trip: for every pixel buffer, packing each 64-pixel glyph
block into row bytes (`char_rows`), emitting the single-width no-patch
routine for each row byte, assembling it, and decoding the bytes with
`parse_function` recovers exactly the thresholded source pixels (0 for an
unlit column, 255 for a lit one).  In this mode every routine consists of
half-stores only, each column being stored at most once, so the claim's
side condition holds for all patterns. -/
theorem c1_round_trip_single_width :
    (∀ data : List Nat, char_rows data = (chunksExact (8 * 8) data).map pack_glyph) ∧
    (∀ data glyph : List Nat, glyph ∈ chunksExact (8 * 8) data →
      (pack_glyph glyph).map (fun row => parse_function (assemble_routine row false false))
        = (chunksExact 8 glyph).map
            (fun pix =>
              Except.ok (some (pix.map fun p => if p ≠ 0 then 0xFF else 0), ([] : List Nat)))) := by
  refine ⟨fun _ => rfl, fun data glyph hmem => ?_⟩
  have h64 : glyph.length = 64 := by
    have := length_of_mem_chunksExact hmem
    omega
  rw [pack_glyph_eq_map glyph h64, List.map_map]
  refine List.map_congr_left ?_
  intro pix hpix
  have h8 : pix.length = 8 := length_of_mem_chunksExact hpix
  simp only [Function.comp_apply]
  exact row_roundtrip pix h8

/-- Witness for `c1_round_trip_single_width` on a one-glyph all-lit pixel
buffer. -/
theorem c1_round_trip_single_width_witness :
    (pack_glyph (List.replicate 64 1)).map
        (fun row => parse_function (assemble_routine row false false))
      = (chunksExact 8 (List.replicate 64 1)).map
          (fun pix =>
            Except.ok (some (pix.map fun p => if p ≠ 0 then 0xFF else 0), ([] : List Nat))) :=
  c1_round_trip_single_width.2 (List.replicate 64 1) (List.replicate 64 1) (by decide)

end GsFont
